import Mathlib

/-!
# Verification of the Hinode product-scraper extraction engine

A shallow embedding in Lean 4 of the extraction/normalization core of
`src/bot.py` (a Telegram scraper bot for hinode.com.br product pages),
together with proofs settling the specification's claims about it.

Modelling conventions:
* Python strings are `List Char` internally, `String` at the interface
  (`String` in this Lean version is a structure wrapping `List Char`).
* Python's `None`-or-string arguments become `Option String`.
* Whitespace (`str.strip`, regex `\s`) and digits (regex `\d`) are modelled
  over their ASCII meaning; the inputs of interest are ASCII-spaced.
* A parsed BeautifulSoup document is modelled abstractly as a `Tag`: the
  repository treats the `bs4` CSS-selector engine as an oracle, so a `Tag`
  carries its text, its attribute map, its Python truthiness, and the
  oracle functions `select_one` / `select` keyed by the literal selector
  strings the source passes.
* Python `float(...)` applied to the cleaned price strings (which contain
  only digits and periods) is modelled as exact decimal-to-rational
  parsing; `"%.2f"` formatting is modelled as round-half-even to two
  fraction digits.  Every operation in scope is total, so the `try/except`
  blocks of the source never fire in the model.
-/

namespace HinodeBot

/-! ## Character classes (ASCII model of Python `str.strip` / regex `\s`, `\d`) -/

def isPySpace (c : Char) : Bool :=
  c = ' ' || c = '\t' || c = '\n' || c = '\r' || c = '\x0b' || c = '\x0c'

/-! ## Python string primitives on `List Char` -/

/-- Python `str.strip()` with no argument: drop leading whitespace. -/
def pyStripLeft (l : List Char) : List Char := l.dropWhile isPySpace

/-- Python `str.strip()`: drop leading and trailing whitespace. -/
def pyStrip (l : List Char) : List Char := (pyStripLeft l).rdropWhile isPySpace

/-- Model of `re.sub(r'\s+', ' ', ·)`: replace each maximal run of whitespace by a
single `' '`.  The `Bool` argument records whether we are inside a run. -/
def collapseAux : Bool → List Char → List Char
  | _, [] => []
  | inRun, c :: cs =>
    if isPySpace c then
      if inRun then collapseAux true cs else ' ' :: collapseAux true cs
    else c :: collapseAux false cs

/-- Python `'pat' in s` (substring test), on char lists. -/
def listContainsSub (pat : List Char) : List Char → Bool
  | [] => pat.isEmpty
  | c :: cs => List.isPrefixOf pat (c :: cs) || listContainsSub pat cs

/-- Python `'pat' in s` on strings. -/
def strContains (s pat : String) : Bool := listContainsSub pat.toList s.toList

/-- Python `str.lower()` (ASCII model). -/
def pyLower (s : String) : String := String.mk (s.toList.map Char.toLower)

/-! ## `clean_text` (src/bot.py lines 41-47) -/

/-- Source `clean_text(text)`: `""` for `None`/empty input, else
`re.sub(r'\s+', ' ', text.strip())` followed by
`.replace('\n', ' ').replace('\r', '')`. -/
def clean_text : Option String → String
  | none => ""
  | some t =>
    if t = "" then ""
    else
      let l1 := collapseAux false (pyStrip t.toList)
      let l2 := (l1.map fun c => if c = '\n' then ' ' else c).filter (· ≠ '\r')
      String.mk l2

/-! ## `format_price` (src/bot.py lines 49-61) -/

/-- The "price unavailable" sentinel the source uses. -/
def priceSentinel : String := "Preço não disponível"

/-- Model of `re.sub(r'[^\d,.]', '', price)`: keep only digits, commas, periods. -/
def priceStrip (l : List Char) : List Char :=
  l.filter fun c => c.isDigit || c = ',' || c = '.'

/-- The separator disambiguation of `format_price`:
if both `,` and `.` occur, `price.replace('.', '').replace(',', '.')`;
else if `,` occurs, `price.replace(',', '.')`; else unchanged. -/
def fixSeparators (l : List Char) : List Char :=
  if l.contains ',' && l.contains '.' then
    (l.filter (· ≠ '.')).map fun c => if c = ',' then '.' else c
  else if l.contains ',' then
    l.map fun c => if c = ',' then '.' else c
  else l

/-- Split a char list at every occurrence of `sep`, keeping empty pieces
(the semantics of Python `str.split(sep)`). -/
def splitOnChar (sep : Char) : List Char → List (List Char)
  | [] => [[]]
  | c :: cs =>
    let r := splitOnChar sep cs
    if c = sep then [] :: r
    else
      match r with
      | [] => [[c]]
      | h :: t => (c :: h) :: t

/-- Numeric value of a digit string. -/
def natVal (l : List Char) : Nat :=
  l.foldl (fun n c => 10 * n + (c.toNat - '0'.toNat)) 0

/-- A nonnegative decimal number represented exactly: `(num, k)` denotes
the rational `num / 10 ^ k`.  The strings `format_price` feeds to
`float(...)` contain only digits and periods, so their values are exactly
of this shape (and nonnegative). -/
abbrev Decimal : Type := Nat × Nat

/-- The rational value a `Decimal` denotes (specification-side view). -/
def Decimal.val (d : Decimal) : ℚ := (d.1 : ℚ) / (10 : ℚ) ^ d.2

/-- Python `float(s)` restricted to the strings `format_price` can feed it
(after `fixSeparators ∘ priceStrip` the string holds only digits and
periods): succeeds exactly on `digits`, `digits.digits`, `digits.` and
`.digits` with at least one digit and at most one period, yielding the
exact decimal value. -/
def parseDecimal (l : List Char) : Option Decimal :=
  match splitOnChar '.' l with
  | [a] =>
    if a ≠ [] && a.all Char.isDigit then some (natVal a, 0) else none
  | [a, b] =>
    if (a.all Char.isDigit && b.all Char.isDigit) && (!a.isEmpty || !b.isEmpty) then
      some (natVal a * 10 ^ b.length + natVal b, b.length)
    else none
  | _ => none

/-- Value `d * 100` rounded to the nearest natural, ties to even
(the rounding of `"%.2f"` on the nonnegative values in scope). -/
def roundCents (d : Decimal) : Nat :=
  let scaled := d.1 * 100
  let den := 10 ^ d.2
  let q := scaled / den
  let r := scaled % den
  if 2 * r < den then q
  else if den < 2 * r then q + 1
  else if q % 2 = 0 then q else q + 1

/-- Model of `f"{v:.2f}"` for the nonnegative values in scope: integer part, a
period, then exactly two fraction digits. -/
def formatFixed2 (d : Decimal) : String :=
  let n := roundCents d
  toString (n / 100) ++ String.mk ['.', Nat.digitChar (n / 10 % 10), Nat.digitChar (n % 10)]

/-- Source `format_price(price)` (src/bot.py lines 49-61): sentinel on `None` or
`""`; otherwise strip to digits/commas/periods, disambiguate separators,
and try `float`: on success `"R$ " + f"{v:.2f}"`, on failure the cleaned
string itself. -/
def format_price : Option String → String
  | none => priceSentinel
  | some p =>
    if p = "" then priceSentinel
    else
      let cleaned := fixSeparators (priceStrip p.toList)
      match parseDecimal cleaned with
      | some q => "R$ " ++ formatFixed2 q
      | none => String.mk cleaned

/-! ## Abstract documents: BeautifulSoup tags as selector oracles

The repository drives `bs4` only through `select_one`, `select`, `.text`,
`.attrs` membership, `.get`, and Python truthiness of a tag.  A `Tag`
packages exactly those observables; `selOne`/`selAll` are keyed by the
literal CSS selector strings occurring in `src/bot.py`. -/

inductive Tag where
  | mk (text : String) (attrs : List (String × String)) (truthy : Bool)
      (selOne : String → Option Tag) (selAll : String → List Tag)

def Tag.text : Tag → String
  | .mk t _ _ _ _ => t

def Tag.attrs : Tag → List (String × String)
  | .mk _ a _ _ _ => a

/-- Python truthiness of a `bs4` tag, recorded as an observable. -/
def Tag.truthy : Tag → Bool
  | .mk _ _ b _ _ => b

/-- Python `tag.select_one(sel)`. -/
def Tag.selectOne : Tag → String → Option Tag
  | .mk _ _ _ f _, s => f s

/-- Python `tag.select(sel)`. -/
def Tag.select : Tag → String → List Tag
  | .mk _ _ _ _ g, s => g s

/-- Python truthiness of a `select_one` result (`None` is falsy). -/
def optTruthy : Option Tag → Bool
  | none => false
  | some t => t.truthy

/-- Python `tag.get(key)` (no default): `None` when the attribute is absent. -/
def Tag.getAttr (t : Tag) (k : String) : Option String := List.lookup k t.attrs

/-- Python `tag.get(key, d)`. -/
def Tag.getAttrD (t : Tag) (k d : String) : String := (List.lookup k t.attrs).getD d

/-- Python `key in tag.attrs`. -/
def Tag.hasAttr (t : Tag) (k : String) : Bool := (List.lookup k t.attrs).isSome

/-- A leaf tag with no selectable children. -/
def leafTag (text : String) (attrs : List (String × String)) : Tag :=
  Tag.mk text attrs true (fun _ => none) (fun _ => [])

/-! ## Records

Python dicts of strings, as insertion-ordered association lists. -/

abbrev Product : Type := List (String × String)

/-- Python `product.get(field, d)`. -/
def pyGet (p : Product) (k d : String) : String := (List.lookup k p).getD d

/-! ## The selector-chain loops

`for selector in selectors: x = soup.select_one(selector); if pred(x): break`
leaves `x` holding either the first result passing `pred`, or the result of
the last selector when none passes. -/

def selectLoop (soup : Tag) (pred : Option Tag → Bool) : List String → Option Tag
  | [] => none
  | [s] => soup.selectOne s
  | s :: rest =>
    let v := soup.selectOne s
    if pred v then v else selectLoop soup pred rest

/-- Same loop shape for `soup.select`, breaking on a nonempty (truthy) list. -/
def selectListLoop (soup : Tag) : List String → List Tag
  | [] => []
  | [s] => soup.select s
  | s :: rest =>
    let v := soup.select s
    if !v.isEmpty then v else selectListLoop soup rest

/-! ## `extract_product_info` (src/bot.py lines 63-157) -/

def name_selectors : List String :=
  [".product-info-main .page-title span",
   ".product-info-main h1.page-title",
   ".product-name h1",
   "[data-ui-id=\"page-title-wrapper\"]"]

def price_selectors : List String :=
  ["[data-price-type=\"finalPrice\"] .price",
   ".price-box .price",
   ".special-price .price",
   ".product-info-main .price"]

def sku_selectors : List String :=
  [".product-info-stock-sku .value",
   ".product.attribute.sku .value",
   "[data-th=\"SKU\"]"]

def desc_selectors : List String :=
  [".product.attribute.description .value",
   ".product.attribute.overview .value",
   ".description .value",
   ".product-info__description"]

def img_selectors : List String :=
  [".gallery-placeholder img",
   ".fotorama__stage__shaft img",
   ".product.media img",
   ".gallery-placeholder__image"]

/-- Model of `clean_text(x.text) if x else ""` for a chain result. -/
def chainText (r : Option Tag) : String :=
  match r with
  | some t => if t.truthy then clean_text (some t.text) else ""
  | none => ""

/-- The break condition of the image loop:
`if image and ('src' in image.attrs or 'data-src' in image.attrs)`. -/
def imgPred (r : Option Tag) : Bool :=
  match r with
  | some t => t.truthy && (t.hasAttr "src" || t.hasAttr "data-src")
  | none => false

/-- Model of `image.get('src') or image.get('data-src', '') if image else ""`. -/
def imgUrlOf (r : Option Tag) : String :=
  match r with
  | some t =>
    if t.truthy then
      match t.getAttr "src" with
      | some v => if v ≠ "" then v else t.getAttrD "data-src" ""
      | none => t.getAttrD "data-src" ""
    else ""
  | none => ""

/-- Source `extract_product_info(url, soup)`.  The body raises nothing in the
model (every step is total), so the `except: return None` branch of the
source is unreachable and the result is always a six-field record. -/
def extract_product_info (url : String) (soup : Tag) : Option Product :=
  let name := chainText (selectLoop soup optTruthy name_selectors)
  let price :=
    match selectLoop soup optTruthy price_selectors with
    | some t => if t.truthy then format_price (some t.text) else priceSentinel
    | none => priceSentinel
  let sku := chainText (selectLoop soup optTruthy sku_selectors)
  let description := chainText (selectLoop soup optTruthy desc_selectors)
  let image_url := imgUrlOf (selectLoop soup imgPred img_selectors)
  some [("Nome", name), ("Preço", price), ("Código (SKU)", sku),
        ("Descrição", description), ("Link da Imagem", image_url),
        ("Link do Produto", url)]

/-! ## `extract_category_products` (src/bot.py lines 159-215) -/

def product_selectors : List String :=
  ["ol.products.list.items.product-items li.item.product.product-item",
   ".products-grid .product-items .product-item",
   ".product-item-info"]

def itemNameSel : String := "a.product-item-link, .product-name a, .product.name a"

def itemPriceSel : String :=
  "span[data-price-type=\"finalPrice\"] span.price, .special-price .price, .price-box .price"

def itemSkuSel : String := "[data-product-id], .product-sku"

def itemImageSel : String := ".product-image-photo, img.photo.image, .product-item-photo img"

/-- Source `name = clean_text(name_elem.text) if name_elem else ""`. -/
def itemName (item : Tag) : String := chainText (item.selectOne itemNameSel)

/-- Source `link = name_elem['href'] if name_elem and 'href' in name_elem.attrs else ""`. -/
def itemLink (item : Tag) : String :=
  match item.selectOne itemNameSel with
  | some e => if e.truthy && e.hasAttr "href" then e.getAttrD "href" "" else ""
  | none => ""

/-- Source `price = format_price(price_elem.text) if price_elem else "Preço não disponível"`. -/
def itemPrice (item : Tag) : String :=
  match item.selectOne itemPriceSel with
  | some e => if e.truthy then format_price (some e.text) else priceSentinel
  | none => priceSentinel

/-- The SKU logic: `item.get('data-product-sku', '')`, and when that is
empty, `sku_elem.get('data-product-id', '') or clean_text(sku_elem.text)`
from the fallback selector (left as `""` when no truthy element). -/
def itemSku (item : Tag) : String :=
  let sku0 := item.getAttrD "data-product-sku" ""
  if sku0 = "" then
    match item.selectOne itemSkuSel with
    | some e =>
      if e.truthy then
        let v := e.getAttrD "data-product-id" ""
        if v ≠ "" then v else clean_text (some e.text)
      else ""
    | none => ""
  else sku0

/-- Source `image_url = image_elem.get('src') or image_elem.get('data-src', '')`
when `image_elem` is truthy, else `''`. -/
def itemImageUrl (item : Tag) : String :=
  match item.selectOne itemImageSel with
  | some e =>
    if e.truthy then
      match e.getAttr "src" with
      | some v => if v ≠ "" then v else e.getAttrD "data-src" ""
      | none => e.getAttrD "data-src" ""
    else ""
  | none => ""

/-- The loop body for one listing fragment: builds the record and keeps it
exactly when `name and (price != "Preço não disponível" or image_url)`.
Every step is total in the model, so the per-item `except: continue` of
the source is unreachable. -/
def processItem (item : Tag) : Option Product :=
  let name := itemName item
  let link := itemLink item
  let price := itemPrice item
  let sku := itemSku item
  let image_url := itemImageUrl item
  if name ≠ "" && (price ≠ priceSentinel || image_url ≠ "") then
    some [("Nome", name), ("Preço", price), ("Código (SKU)", sku),
          ("Link da Imagem", image_url), ("Link do Produto", link),
          ("Descrição", "")]
  else none

/-- The container-selector loop of `extract_category_products`. -/
def productItems (soup : Tag) : List Tag := selectListLoop soup product_selectors

/-- Source `extract_category_products(url, soup)`: one pass over the fragments,
appending each kept record (the `url` parameter is unused by the source
body as well). -/
def extract_category_products (url : String) (soup : Tag) : List Product :=
  let _ := url
  (productItems soup).filterMap processItem

/-! ## `clean_url` and the post-fetch core of `scrape_hinode`
(src/bot.py lines 217-270) -/

/-- Source `clean_url`: strip, then drop everything from the first `'?'` on. -/
def clean_url (u : String) : String :=
  let l := pyStrip u.toList
  if l.contains '?' then String.mk (l.takeWhile (· ≠ '?')) else String.mk l

def notFoundMarker : String := "página não foi encontrada"

def productInfoMainSel : String := ".product-info-main"

/-- The single-product branch of `scrape_hinode`:
`return [product] if product else []` (a nonempty dict is truthy). -/
def singleProductBranch (url : String) (soup : Tag) : List Product :=
  match extract_product_info url soup with
  | some p => if p.isEmpty then [] else [p]
  | none => []

/-- The listing branch of `scrape_hinode`:
`return [p for p in products if p and p["Nome"]]`. -/
def listingBranch (url : String) (soup : Tag) : List Product :=
  (extract_category_products url soup).filter fun p =>
    !p.isEmpty && pyGet p "Nome" "" ≠ ""

/-- The pure core of `scrape_hinode` after the HTTP fetch: `url` is the
argument URL, `responseText` the fetched body, `soup` its parse.  Network
I/O, cookies and delays stay outside the model; the classification and
dispatch (lines 255-265) are embedded as written. -/
def scrape_hinode (url responseText : String) (soup : Tag) : List Product :=
  let url := clean_url url
  if strContains (pyLower responseText) notFoundMarker then []
  else if strContains url "/p/" || optTruthy (soup.selectOne productInfoMainSel) then
    singleProductBranch url soup
  else
    listingBranch url soup

/-! ## `create_csv` (src/bot.py lines 272-301)

The CSV is modelled at the row level (a list of rows, each a list of
cells) — quoting/encoding belongs to the Python `csv` library.  `None`
models the source's explicit `return None` for an empty product list. -/

def fieldnames : List String :=
  ["Nome", "Preço", "Código (SKU)", "Descrição", "Link da Imagem", "Link do Produto"]

/-- Row `{field: product.get(field, "") for field in fieldnames}`, written in
header order. -/
def csvRow (p : Product) : List String := fieldnames.map fun f => pyGet p f ""

/-- Source `create_csv(products)`: `None` on an empty list, else a header row
followed by one row per record. -/
def create_csv (products : List Product) : Option (List (List String)) :=
  if products.isEmpty then none
  else some (fieldnames :: products.map csvRow)

/-! ## Spec-side text normalizer

The specification describes `normalize` as: collapse each run of
whitespace into one space and trim the ends — equivalently, split the
input into its maximal whitespace-free words and join them with single
spaces.  `specNormalize` is that description, written from the spec's
words, to be compared with the source-derived `clean_text`. -/

/-- The maximal whitespace-free words of a char list, in order. -/
def wordsOf : List Char → List (List Char)
  | [] => []
  | c :: cs =>
    if isPySpace c then wordsOf cs
    else (c :: cs.takeWhile (fun x => !isPySpace x)) :: wordsOf (cs.dropWhile (fun x => !isPySpace x))
termination_by l => l.length
decreasing_by
  · simp only [List.length_cons]; omega
  · have h := (List.dropWhile_suffix (fun x => !isPySpace x) (l := cs)).sublist.length_le
    simp only [List.length_cons]; omega

def joinTail : List (List Char) → List Char
  | [] => []
  | w :: ws => ' ' :: (w ++ joinTail ws)

/-- Join words with single spaces. -/
def joinWords : List (List Char) → List Char
  | [] => []
  | w :: ws => w ++ joinTail ws

/-- The spec's `normalize`, per its own words. -/
def specNormalize (s : String) : String := String.mk (joinWords (wordsOf s.toList))

/-! ## Concrete documents used as test inputs -/

/-- A document on which every selector fails. -/
def emptyDoc : Tag := Tag.mk "" [] true (fun _ => none) (fun _ => [])

/-- A listing fragment: its name anchor, price element and image element
(each possibly absent), plus its own attributes. -/
def mkItem (nameElem priceElem imgElem : Option Tag) (attrs : List (String × String)) : Tag :=
  Tag.mk "" attrs true
    (fun s =>
      if s = itemNameSel then nameElem
      else if s = itemPriceSel then priceElem
      else if s = itemImageSel then imgElem
      else none)
    (fun _ => [])

/-- A listing document whose primary container selector yields `items`. -/
def mkListing (items : List Tag) : Tag :=
  Tag.mk "" [] true (fun _ => none)
    (fun s =>
      if s = "ol.products.list.items.product-items li.item.product.product-item" then items
      else [])

/-- Fragment with a name anchor (with `href`) and a price. -/
def fragA : Tag :=
  mkItem (some (leafTag "Produto A" [("href", "https://www.hinode.com.br/a")]))
    (some (leafTag "R$ 10,00" [])) none []

/-- Fragment with no resolvable name (but with a price). -/
def fragB : Tag := mkItem none (some (leafTag "R$ 7,00" [])) none []

/-- Fragment with a name anchor (with `href`) and a price. -/
def fragC : Tag :=
  mkItem (some (leafTag "Produto C" [("href", "https://www.hinode.com.br/c")]))
    (some (leafTag "R$ 5,00" [])) none []

/-- Fragment whose name resolves but whose price and image do not. -/
def fragD : Tag :=
  mkItem (some (leafTag "Produto D" [("href", "https://www.hinode.com.br/d")])) none none []

/-- Fragment with a name anchor carrying no `href`, and a price. -/
def fragE : Tag := mkItem (some (leafTag "Produto E" [])) (some (leafTag "R$ 3,50" [])) none []

/-- A single-product document whose name, price and image chains resolve. -/
def productDoc : Tag :=
  Tag.mk "" [] true
    (fun s =>
      if s = ".product-info-main .page-title span" then some (leafTag " Perfume  H " [])
      else if s = "[data-price-type=\"finalPrice\"] .price" then some (leafTag "R$ 129,90" [])
      else if s = ".gallery-placeholder img" then
        some (leafTag "" [("src", "https://img.hinode.com.br/h.jpg")])
      else if s = ".product-info-main" then some (leafTag "" [])
      else none)
    (fun _ => [])

/-- A record missing most fields, for the serializer's missing-field path. -/
def partialRecord : Product := [("Nome", "X")]

/-- The cleaned price string `format_price` hands to `float(...)`. -/
def cleanedPrice (s : String) : List Char := fixSeparators (priceStrip s.toList)

/-- The record `processItem` produces from `fragA`. -/
def recordA : Product :=
  [("Nome", "Produto A"), ("Preço", "R$ 10.00"), ("Código (SKU)", ""),
   ("Link da Imagem", ""), ("Link do Produto", "https://www.hinode.com.br/a"),
   ("Descrição", "")]

/-- The record `extract_product_info` produces from `productDoc`. -/
def recordP : Product :=
  [("Nome", "Perfume H"), ("Preço", "R$ 129.90"), ("Código (SKU)", ""),
   ("Descrição", ""), ("Link da Imagem", "https://img.hinode.com.br/h.jpg"),
   ("Link do Produto", "https://www.hinode.com.br/p/a")]

/-! ## Lemmas about whitespace collapsing (towards claim C9) -/

theorem collapseAux_true_eq (l : List Char) :
    collapseAux true l = collapseAux false (l.dropWhile isPySpace) := by
  induction l with
  | nil => rfl
  | cons c cs ih =>
    by_cases h : isPySpace c
    · simp [collapseAux, List.dropWhile_cons, h, ih]
    · simp [collapseAux, List.dropWhile_cons, h]

theorem collapseAux_false_word (w rest : List Char) (hw : ∀ c ∈ w, isPySpace c = false) :
    collapseAux false (w ++ rest) = w ++ collapseAux false rest := by
  induction w with
  | nil => rfl
  | cons c cs ih =>
    have hc : isPySpace c = false := hw c (by simp)
    simp only [List.cons_append, collapseAux, hc, Bool.false_eq_true, if_false]
    exact congrArg (c :: ·) (ih fun x hx => hw x (by simp [hx]))

theorem mem_collapseAux (b : Bool) (l : List Char) (c : Char) (hc : c ∈ collapseAux b l) :
    c = ' ' ∨ isPySpace c = false := by
  induction l generalizing b with
  | nil => simp [collapseAux] at hc
  | cons x xs ih =>
    by_cases hx : isPySpace x
    · cases b with
      | true =>
        simp only [collapseAux, hx, if_true] at hc
        exact ih true hc
      | false =>
        simp only [collapseAux, hx, if_true] at hc
        rcases List.mem_cons.mp hc with h | h
        · exact Or.inl h
        · exact ih true h
    · simp only [collapseAux, hx, if_false] at hc
      rcases List.mem_cons.mp hc with h | h
      · subst h; exact Or.inr (by simpa using hx)
      · exact ih false h

theorem wordsOf_nil : wordsOf [] = [] := by rw [wordsOf]

theorem wordsOf_cons_space (c : Char) (cs : List Char) (h : isPySpace c = true) :
    wordsOf (c :: cs) = wordsOf cs := by rw [wordsOf]; simp [h]

theorem wordsOf_cons_word (c : Char) (cs : List Char) (h : isPySpace c = false) :
    wordsOf (c :: cs) =
      (c :: cs.takeWhile (fun x => !isPySpace x)) ::
        wordsOf (cs.dropWhile (fun x => !isPySpace x)) := by
  rw [wordsOf]; simp [h]

theorem wordsOf_all_space (l : List Char) (h : ∀ c ∈ l, isPySpace c = true) : wordsOf l = [] := by
  induction l with
  | nil => exact wordsOf_nil
  | cons c cs ih =>
    rw [wordsOf_cons_space c cs (h c (by simp))]
    exact ih fun x hx => h x (by simp [hx])

theorem wordsOf_space_prepend (r l : List Char) (h : ∀ c ∈ r, isPySpace c = true) :
    wordsOf (r ++ l) = wordsOf l := by
  induction r with
  | nil => rfl
  | cons c cs ih =>
    rw [List.cons_append, wordsOf_cons_space _ _ (h c (by simp))]
    exact ih fun x hx => h x (by simp [hx])

theorem takeWhile_nsp_of_space (r : List Char) (h : ∀ c ∈ r, isPySpace c = true) :
    r.takeWhile (fun x => !isPySpace x) = [] := by
  cases r with
  | nil => rfl
  | cons c cs => simp [List.takeWhile_cons, h c (by simp)]

theorem dropWhile_nsp_of_space (r : List Char) (h : ∀ c ∈ r, isPySpace c = true) :
    r.dropWhile (fun x => !isPySpace x) = r := by
  cases r with
  | nil => rfl
  | cons c cs => simp [List.dropWhile_cons, h c (by simp)]

theorem wordsOf_append_space (r : List Char) (hr : ∀ c ∈ r, isPySpace c = true) :
    ∀ n x, List.length x ≤ n → wordsOf (x ++ r) = wordsOf x := by
  intro n
  induction n with
  | zero =>
    intro x hx
    have hx0 : x = [] := List.length_eq_zero.mp (Nat.le_zero.mp hx)
    subst hx0
    simpa [wordsOf_nil] using wordsOf_all_space r hr
  | succ n ih =>
    intro x hx
    match x with
    | [] => simpa [wordsOf_nil] using wordsOf_all_space r hr
    | c :: cs =>
      by_cases hc : isPySpace c
      · rw [List.cons_append, wordsOf_cons_space _ _ (by simpa using hc),
          wordsOf_cons_space _ _ (by simpa using hc)]
        exact ih cs (by simpa using Nat.le_of_succ_le_succ (by simpa using hx))
      · have hc' : isPySpace c = false := by simpa using hc
        rw [List.cons_append, wordsOf_cons_word _ _ hc', wordsOf_cons_word _ _ hc']
        by_cases hd : cs.dropWhile (fun x => !isPySpace x) = []
        · have hall : ∀ a ∈ cs, (!isPySpace a) = true := by
            intro a ha
            exact List.dropWhile_eq_nil_iff.mp hd a ha
          have htw : cs.takeWhile (fun x => !isPySpace x) = cs :=
            List.takeWhile_eq_self_iff.mpr hall
          rw [List.takeWhile_append_of_pos hall, List.dropWhile_append_of_pos hall,
            takeWhile_nsp_of_space r hr, dropWhile_nsp_of_space r hr, htw, hd,
            wordsOf_all_space r hr, wordsOf_nil]
          simp
        · have hlen : (cs.dropWhile (fun x => !isPySpace x)).length ≤ cs.length :=
            (List.dropWhile_suffix _).sublist.length_le
          have hne : ((cs.dropWhile (fun x => !isPySpace x)).isEmpty) = false := by
            simpa [List.isEmpty_iff] using hd
          have htw : ¬((cs.takeWhile (fun x => !isPySpace x)).length = cs.length) := by
            intro hlen'
            have heq : cs.takeWhile (fun x => !isPySpace x) = cs :=
              (List.takeWhile_prefix _).eq_of_length hlen'
            have happ := List.takeWhile_append_dropWhile (fun x => !isPySpace x) cs
            rw [heq] at happ
            have hlen2 := congrArg List.length happ
            simp only [List.length_append] at hlen2
            exact hd (List.length_eq_zero.mp (by omega))
          rw [List.takeWhile_append, if_neg htw, List.dropWhile_append, hne]
          simp only [Bool.false_eq_true, if_false]
          have hxlen : cs.length ≤ n := by simpa using Nat.le_of_succ_le_succ (by simpa using hx)
          rw [ih _ (le_trans hlen hxlen)]

theorem joinWords_cons_ne (w : List Char) (ws : List (List Char)) (h : ws ≠ []) :
    joinWords (w :: ws) = w ++ ' ' :: joinWords ws := by
  cases ws with
  | nil => exact absurd rfl h
  | cons w2 ws2 => simp [joinWords, joinTail]

theorem getLast?_of_suffix {l₁ l₂ : List Char} (h : l₂ <:+ l₁) (hne : l₂ ≠ []) :
    l₁.getLast? = l₂.getLast? := by
  obtain ⟨t, rfl⟩ := h
  rw [List.getLast?_append, List.getLast?_eq_getLast l₂ hne]
  rfl

/-- Collapsing whitespace runs in a list with no leading and no trailing
whitespace yields its words joined by single spaces. -/
theorem collapse_strip_eq_join :
    ∀ n (l : List Char), l.length ≤ n →
      (∀ c, l.head? = some c → isPySpace c = false) →
      (∀ c, l.getLast? = some c → isPySpace c = false) →
      collapseAux false l = joinWords (wordsOf l) := by
  intro n
  induction n with
  | zero =>
    intro l hl _ _
    have hl0 : l = [] := List.length_eq_zero.mp (Nat.le_zero.mp hl)
    subst hl0
    rw [wordsOf_nil]; rfl
  | succ n ih =>
    intro l hl hHead hLast
    match l with
    | [] => rw [wordsOf_nil]; rfl
    | c :: cs =>
      have hc : isPySpace c = false := hHead c rfl
      have hstep : collapseAux false (c :: cs) = c :: collapseAux false cs := by
        simp [collapseAux, hc]
      have hcs : cs.takeWhile (fun x => !isPySpace x) ++ cs.dropWhile (fun x => !isPySpace x) = cs :=
        List.takeWhile_append_dropWhile _ _
      have hwns : ∀ x ∈ cs.takeWhile (fun x => !isPySpace x), isPySpace x = false := fun x hx => by
        simpa using List.mem_takeWhile_imp hx
      have hword : collapseAux false cs
          = cs.takeWhile (fun x => !isPySpace x)
            ++ collapseAux false (cs.dropWhile (fun x => !isPySpace x)) := by
        conv_lhs => rw [← hcs]
        exact collapseAux_false_word _ _ hwns
      rw [wordsOf_cons_word c cs hc]
      cases hrest : cs.dropWhile (fun x => !isPySpace x) with
      | nil =>
        rw [hstep, hword, hrest, wordsOf_nil]
        simp [collapseAux, joinWords, joinTail]
      | cons d rest₁ =>
        have hd : isPySpace d = true := by
          have hh := List.head?_dropWhile_not (fun x => !isPySpace x) cs
          rw [hrest] at hh
          simpa using hh
        have hrun : collapseAux false (d :: rest₁)
            = ' ' :: collapseAux false (rest₁.dropWhile isPySpace) := by
          simp [collapseAux, hd, collapseAux_true_eq]
        have hwrest : wordsOf (d :: rest₁) = wordsOf (rest₁.dropWhile isPySpace) := by
          rw [wordsOf_cons_space d rest₁ hd]
          conv_lhs => rw [← List.takeWhile_append_dropWhile isPySpace rest₁]
          exact wordsOf_space_prepend _ _ fun x hx => List.mem_takeWhile_imp hx
        cases hrest2 : rest₁.dropWhile isPySpace with
        | nil =>
          exfalso
          have hallsp : ∀ x ∈ rest₁, isPySpace x = true := fun x hx =>
            List.dropWhile_eq_nil_iff.mp hrest2 x hx
          have hsuffix : (d :: rest₁) <:+ c :: cs := by
            have s1 : (d :: rest₁) <:+ cs := by
              rw [← hrest]; exact List.dropWhile_suffix _
            exact s1.trans (List.suffix_cons c cs)
          have hlasteq : (c :: cs).getLast? = (d :: rest₁).getLast? :=
            getLast?_of_suffix hsuffix (List.cons_ne_nil d rest₁)
          have hmem : (d :: rest₁).getLast (List.cons_ne_nil d rest₁) ∈ d :: rest₁ :=
            List.getLast_mem _
          have hspace : isPySpace ((d :: rest₁).getLast (List.cons_ne_nil d rest₁)) = true := by
            rcases List.mem_cons.mp hmem with h | h
            · rw [h]; exact hd
            · exact hallsp _ h
          have := hLast _ (by
            rw [hlasteq, List.getLast?_eq_getLast (d :: rest₁) (List.cons_ne_nil d rest₁)])
          rw [this] at hspace
          exact Bool.false_ne_true hspace
        | cons e rest₂ =>
          have he : isPySpace e = false := by
            have hh := List.head?_dropWhile_not isPySpace rest₁
            rw [hrest2] at hh
            simpa using hh
          have hsuffix : (e :: rest₂) <:+ c :: cs := by
            have s1 : (e :: rest₂) <:+ rest₁ := by
              rw [← hrest2]; exact List.dropWhile_suffix _
            have s3 : (d :: rest₁) <:+ cs := by
              rw [← hrest]; exact List.dropWhile_suffix _
            exact ((s1.trans (List.suffix_cons d rest₁)).trans s3).trans (List.suffix_cons c cs)
          have hIH : collapseAux false (e :: rest₂) = joinWords (wordsOf (e :: rest₂)) := by

            apply ih
            · have h1 : (d :: rest₁).length ≤ cs.length := by
                rw [← hrest]; exact (List.dropWhile_suffix _).sublist.length_le
              have h2 : (e :: rest₂).length ≤ rest₁.length := by
                rw [← hrest2]; exact (List.dropWhile_suffix _).sublist.length_le
              simp only [List.length_cons] at h1 h2 hl ⊢
              omega
            · intro x hx
              rw [List.head?_cons, Option.some_inj] at hx
              rw [← hx]; exact he
            · intro x hx
              apply hLast
              rw [getLast?_of_suffix hsuffix (List.cons_ne_nil e rest₂)]
              exact hx
          have hwne : wordsOf (e :: rest₂) ≠ [] := by
            rw [wordsOf_cons_word e rest₂ he]
            exact List.cons_ne_nil _ _
          rw [hstep, hword, hrest, hrun, hrest2, hIH, hwrest, hrest2,
            joinWords_cons_ne _ _ hwne]
          simp

theorem pyStrip_head (l : List Char) :
    ∀ c, (pyStrip l).head? = some c → isPySpace c = false := by
  intro c hc
  have hpre : pyStrip l <+: pyStripLeft l := List.rdropWhile_prefix isPySpace (pyStripLeft l)
  obtain ⟨t, ht⟩ := hpre
  have hh := List.head?_dropWhile_not isPySpace l
  rw [show l.dropWhile isPySpace = pyStripLeft l from rfl, ← ht] at hh
  cases hs : pyStrip l with
  | nil => rw [hs] at hc; exact absurd hc (by simp)
  | cons x xs =>
    rw [hs] at hc hh
    rw [List.head?_cons, Option.some_inj] at hc
    subst hc
    simpa using hh

theorem pyStrip_last (l : List Char) :
    ∀ c, (pyStrip l).getLast? = some c → isPySpace c = false := by
  intro c hc
  have hne : pyStrip l ≠ [] := by
    intro h; rw [h] at hc; exact absurd hc (by simp)
  have hlast := List.rdropWhile_last_not isPySpace (pyStripLeft l) hne
  rw [List.getLast?_eq_getLast _ hne, Option.some_inj] at hc
  rw [← hc]
  simpa using hlast

theorem rdropWhile_append_rtakeWhile_sp (m : List Char) :
    m.rdropWhile isPySpace ++ m.rtakeWhile isPySpace = m := by
  rw [List.rdropWhile, List.rtakeWhile, ← List.reverse_append,
    List.takeWhile_append_dropWhile, List.reverse_reverse]

theorem wordsOf_pyStrip (l : List Char) : wordsOf (pyStrip l) = wordsOf l := by
  have h1 : wordsOf (pyStrip l) = wordsOf (pyStripLeft l) := by
    conv_rhs => rw [← rdropWhile_append_rtakeWhile_sp (pyStripLeft l)]
    exact (wordsOf_append_space _ (fun c hc => List.mem_rtakeWhile_imp hc) _ _ le_rfl).symm
  have h2 : wordsOf (pyStripLeft l) = wordsOf l := by
    conv_rhs => rw [← List.takeWhile_append_dropWhile isPySpace l]
    exact (wordsOf_space_prepend _ _ fun c hc => List.mem_takeWhile_imp hc).symm
  rw [h1, h2]

/-- Source `clean_text` agrees with the spec-side normalizer on every string. -/
theorem clean_text_eq_specNormalize (s : String) : clean_text (some s) = specNormalize s := by
  by_cases hs : s = ""
  · subst hs
    show ("" : String) = specNormalize ""
    rw [specNormalize, show ("" : String).toList = ([] : List Char) from rfl, wordsOf_nil]
    rfl
  · rw [clean_text, if_neg hs]
    have hchars := mem_collapseAux false (pyStrip s.toList)
    have hmap : (collapseAux false (pyStrip s.toList)).map (fun c => if c = '\n' then ' ' else c)
        = collapseAux false (pyStrip s.toList) := by
      have hid : ∀ c ∈ collapseAux false (pyStrip s.toList),
          (fun c => if c = '\n' then ' ' else c) c = id c := by
        intro c hcmem
        rcases hchars c hcmem with h | h
        · subst h; rfl
        · simp only [id]
          rw [if_neg]
          intro hnl
          rw [hnl] at h
          exact absurd h (by simp [isPySpace])
      rw [List.map_congr_left hid, List.map_id]
    have hfil : (collapseAux false (pyStrip s.toList)).filter (· ≠ '\r')
        = collapseAux false (pyStrip s.toList) := by
      apply List.filter_eq_self.mpr
      intro c hcmem
      rcases hchars c hcmem with h | h
      · subst h; simp
      · simp only [ne_eq, decide_eq_true_eq]
        intro hcr
        rw [hcr] at h
        exact absurd h (by simp [isPySpace])
    simp only [hmap, hfil]
    rw [collapse_strip_eq_join (pyStrip s.toList).length _ le_rfl (pyStrip_head _)
      (pyStrip_last _), wordsOf_pyStrip]
    rfl

/-! ## Helper lemmas for the price normalizer -/

theorem digitChar_isDigit (m : Nat) (h : m < 10) : (Nat.digitChar m).isDigit = true := by
  interval_cases m <;> decide

theorem formatFixed2_shape (d : Decimal) :
    ∃ pre b c, formatFixed2 d = pre ++ String.mk ['.', b, c]
      ∧ b.isDigit = true ∧ c.isDigit = true :=
  ⟨toString (roundCents d / 100), Nat.digitChar (roundCents d / 10 % 10),
    Nat.digitChar (roundCents d % 10), rfl,
    digitChar_isDigit _ (Nat.mod_lt _ (by omega)),
    digitChar_isDigit _ (Nat.mod_lt _ (by omega))⟩

theorem comma_not_mem_swapped (l : List Char) :
    ',' ∉ l.map fun c => if c = ',' then '.' else c := by
  intro h
  obtain ⟨a, _, ha⟩ := List.mem_map.mp h
  by_cases hc : a = ','
  · rw [if_pos hc] at ha
    exact absurd ha (by decide)
  · rw [if_neg hc] at ha
    exact hc ha

/-! ## Helper lemmas for the engine -/

theorem productItems_mkListing (items : List Tag) : productItems (mkListing items) = items := by
  cases items with
  | nil => rfl
  | cons t ts => rfl

theorem extract_category_mkListing (url : String) (items : List Tag) :
    extract_category_products url (mkListing items) = items.filterMap processItem := by
  show (productItems (mkListing items)).filterMap processItem = _
  rw [productItems_mkListing]

theorem scrape_branches (url rt : String) (soup : Tag)
    (hnf : strContains (pyLower rt) notFoundMarker = false) :
    scrape_hinode url rt soup =
      if (strContains (clean_url url) "/p/" || optTruthy (soup.selectOne productInfoMainSel)) = true
      then singleProductBranch (clean_url url) soup
      else listingBranch (clean_url url) soup := by
  simp only [scrape_hinode]
  rw [if_neg (by rw [hnf]; exact Bool.false_ne_true)]

theorem listingBranch_nome (url : String) (soup : Tag) :
    ∀ p ∈ listingBranch url soup, pyGet p "Nome" "" ≠ "" := by
  intro p hp
  have h := (List.mem_filter.mp hp).2
  have h2 : (¬List.isEmpty p = true) ∧ pyGet p "Nome" "" ≠ "" := by simpa using h
  exact h2.2

/-! ## Claim theorems -/

/-- C4: `format_price` first strips every character that is not a digit,
comma or period; if both `,` and `.` remain it removes `.` and turns `,`
into `.`, if only `,` remains it turns it into `.`; if the cleaned string
parses as a decimal number the result is the currency symbol followed by
that number with exactly two fraction digits, and if parsing fails the
result is the cleaned un-parsed string; for absent or empty input the
result is the "price unavailable" sentinel.  (It never raises: every
`format_price` path below is a total function.) -/
theorem c4_format_price_behavior :
    (format_price none = priceSentinel ∧ format_price (some "") = priceSentinel) ∧
    (∀ s : String,
      (priceStrip s.toList).Sublist s.toList ∧
      (∀ c ∈ priceStrip s.toList, c.isDigit = true ∨ c = ',' ∨ c = '.') ∧
      (∀ c ∈ s.toList, (c.isDigit = true ∨ c = ',' ∨ c = '.') → c ∈ priceStrip s.toList)) ∧
    (∀ l : List Char, l.contains ',' = true → l.contains '.' = true →
      fixSeparators l = (l.filter (· ≠ '.')).map (fun c => if c = ',' then '.' else c) ∧
      ',' ∉ fixSeparators l) ∧
    (∀ l : List Char, l.contains ',' = true → l.contains '.' = false →
      fixSeparators l = l.map (fun c => if c = ',' then '.' else c) ∧
      ',' ∉ fixSeparators l) ∧
    (∀ l : List Char, l.contains ',' = false → fixSeparators l = l) ∧
    (∀ s : String, s ≠ "" → ∀ d, parseDecimal (cleanedPrice s) = some d →
      format_price (some s) = "R$ " ++ formatFixed2 d ∧
      ∃ pre b c, formatFixed2 d = pre ++ String.mk ['.', b, c]
        ∧ b.isDigit = true ∧ c.isDigit = true) ∧
    (∀ s : String, s ≠ "" → parseDecimal (cleanedPrice s) = none →
      format_price (some s) = String.mk (cleanedPrice s)) := by
  refine ⟨⟨rfl, by decide⟩, ?_, ?_, ?_, ?_, ?_, ?_⟩
  · intro s
    refine ⟨List.filter_sublist _, ?_, ?_⟩
    · intro c hc
      have h := (List.mem_filter.mp hc).2
      simpa [Bool.or_eq_true, decide_eq_true_eq, or_assoc] using h
    · intro c hc hok
      refine List.mem_filter.mpr ⟨hc, ?_⟩
      rcases hok with h | h | h <;> simp [h]
  · intro l h1 h2
    have hcond : (l.contains ',' && l.contains '.') = true := by rw [h1, h2]; rfl
    rw [fixSeparators, if_pos hcond]
    exact ⟨rfl, comma_not_mem_swapped _⟩
  · intro l h1 h2
    have hcond : (l.contains ',' && l.contains '.') = false := by rw [h1, h2]; rfl
    rw [fixSeparators, if_neg (by rw [hcond]; exact Bool.false_ne_true), if_pos h1]
    exact ⟨rfl, comma_not_mem_swapped _⟩
  · intro l h1
    rw [fixSeparators,
      if_neg (by rw [h1, Bool.false_and]; exact Bool.false_ne_true),
      if_neg (by rw [h1]; exact Bool.false_ne_true)]
  · intro s hs d hd
    have heq : format_price (some s) = "R$ " ++ formatFixed2 d := by
      simp only [format_price, if_neg hs]
      rw [show fixSeparators (priceStrip s.toList) = cleanedPrice s from rfl, hd]
    exact ⟨heq, formatFixed2_shape d⟩
  · intro s hs hd
    simp only [format_price, if_neg hs]
    rw [show fixSeparators (priceStrip s.toList) = cleanedPrice s from rfl, hd]

/-- Witness for C4 at the concrete input `"R$ 12,34"`. -/
theorem c4_format_price_behavior_witness :
    format_price (some "R$ 12,34") = "R$ " ++ formatFixed2 (1234, 2) :=
  (c4_format_price_behavior.2.2.2.2.2.1 "R$ 12,34" (by decide) (1234, 2) (by decide)).1

/-- C5: `format_price "R$ 1.234,56"` and `format_price "1234,56"` agree —
both clean to the same decimal string, parse to the same value, and print
as the same canonical currency string with two fraction digits. -/
theorem c5_price_equivalence :
    format_price (some "R$ 1.234,56") = format_price (some "1234,56") ∧
    parseDecimal (cleanedPrice "R$ 1.234,56") = parseDecimal (cleanedPrice "1234,56") ∧
    format_price (some "R$ 1.234,56") = "R$ 1234.56" := by
  refine ⟨by decide, by decide, by decide⟩

/-- C9: `clean_text` is total, returns `""` on absent input, and on every
string agrees with the spec-side normalizer (collapse each whitespace run
to one space, trim the ends); in particular
`clean_text " a   b\n c " = "a b c"`. -/
theorem c9_clean_text_normalizes :
    clean_text none = "" ∧
    (∀ s : String, clean_text (some s) = specNormalize s) ∧
    clean_text (some " a   b\n c ") = "a b c" :=
  ⟨rfl, clean_text_eq_specNormalize, by decide⟩

/-- C6: `create_csv` returns the distinct no-output signal (`none`) on
zero records; on `N ≥ 1` records it returns a header row plus one row per
record (`N + 1` rows), every row exactly 6 cells, and a field missing
from a record's mapping is serialized as `""`. -/
theorem c6_create_csv_shape :
    create_csv [] = none ∧
    (∀ ps : List Product, ps ≠ [] →
      create_csv ps = some (fieldnames :: ps.map csvRow) ∧
      (fieldnames :: ps.map csvRow).length = ps.length + 1 ∧
      (∀ r ∈ fieldnames :: ps.map csvRow, r.length = 6)) ∧
    (∀ p : Product, ∀ k, List.lookup k p = none → pyGet p k "" = "") := by
  refine ⟨rfl, ?_, ?_⟩
  · intro ps hps
    have hne : ps.isEmpty = false := by simpa [List.isEmpty_iff] using hps
    refine ⟨by rw [create_csv, if_neg (by simp [hne])], by simp, ?_⟩
    intro r hr
    rcases List.mem_cons.mp hr with h | h
    · subst h; decide
    · obtain ⟨p, _, rfl⟩ := List.mem_map.mp h
      simp [csvRow, fieldnames]
  · intro p k h
    simp [pyGet, h]

/-- Witness for C6 at one record that is missing five of the six fields. -/
theorem c6_create_csv_shape_witness :
    create_csv [partialRecord] = some (fieldnames :: [partialRecord].map csvRow) ∧
    pyGet partialRecord "Preço" "" = "" :=
  ⟨(c6_create_csv_shape.2.1 [partialRecord] (by decide)).1,
    c6_create_csv_shape.2.2 partialRecord "Preço" (by decide)⟩

/-- Counterexample to C1: on a single-product URL whose document resolves
no selector at all, `extract_product_info` still returns a record (not
`none`), and `scrape_hinode` emits that record with an empty `"Nome"`. -/
theorem c1_counterexample :
    extract_product_info "https://www.hinode.com.br/p/x" emptyDoc ≠ none ∧
    (scrape_hinode "https://www.hinode.com.br/p/x" "" emptyDoc).map
      (fun p => pyGet p "Nome" "") = [""] :=
  ⟨by decide, by decide⟩

/-- C1 (amended): `extract_product_info` always returns a record — even
when the name chain resolves to nothing, in which case its `"Nome"` is
empty and the single-product branch emits it; only the listing branch of
the engine guarantees a non-empty `"Nome"` on every emitted record. -/
theorem c1_emitted_names :
    (∀ url soup, (extract_product_info url soup).isSome = true) ∧
    (∀ url soup p, p ∈ listingBranch url soup → pyGet p "Nome" "" ≠ "") ∧
    (∀ url rt soup, strContains (pyLower rt) notFoundMarker = false →
      strContains (clean_url url) "/p/" = false →
      optTruthy (soup.selectOne productInfoMainSel) = false →
      ∀ p ∈ scrape_hinode url rt soup, pyGet p "Nome" "" ≠ "") := by
  refine ⟨fun _ _ => rfl, listingBranch_nome, ?_⟩
  intro url rt soup h1 h2 h3 p hp
  rw [scrape_branches url rt soup h1, if_neg (by rw [h2, h3]; simp)] at hp
  exact listingBranch_nome _ _ p hp

/-- Witness for C1 (amended): a concrete listing run emits `recordA`,
whose name is non-empty. -/
theorem c1_emitted_names_witness : pyGet recordA "Nome" "" ≠ "" :=
  c1_emitted_names.2.2 "https://www.hinode.com.br/x" "" (mkListing [fragA])
    (by decide) (by decide) (by decide) recordA (by decide)

/-- Counterexample to C2: `fragD` resolves a name, yet (price and image
both unresolved) the listing extractor drops it — so "drops a fragment if
and only if that fragment fails to resolve a name" is false. -/
theorem c2_counterexample :
    itemName fragD ≠ "" ∧ extract_category_products "u" (mkListing [fragD]) = [] :=
  ⟨by decide, by decide⟩

/-- C2 (amended): the listing extractor drops a fragment iff the fragment
fails to resolve a name, or resolves neither a price nor an image URL; on
a listing of 3 fragments where exactly one has no resolvable name and the
other two resolve prices, exactly 2 records are returned. -/
theorem c2_drop_rule :
    (∀ item, processItem item = none ↔
      (itemName item = "" ∨ (itemPrice item = priceSentinel ∧ itemImageUrl item = ""))) ∧
    (extract_category_products "u" (mkListing [fragA, fragB, fragC])).length = 2 := by
  constructor
  · intro item
    have hif : processItem item = none
        ↔ ¬(itemName item ≠ "" ∧ (itemPrice item ≠ priceSentinel ∨ itemImageUrl item ≠ "")) := by
      simp only [processItem]
      split
      next hcond =>
        constructor
        · intro h; exact absurd h (by simp)
        · intro h; exact absurd (by simpa using hcond) h
      next hcond =>
        constructor
        · intro _; simpa using hcond
        · intro _; rfl
    rw [hif]
    tauto
  · decide

/-- Witness for C2 (amended) at `fragD`. -/
theorem c2_drop_rule_witness : processItem fragD = none :=
  (c2_drop_rule.1 fragD).mpr (Or.inr ⟨by decide, by decide⟩)

/-- Counterexample to C3: a listing fragment whose name anchor has no
`href` is emitted with an empty `"Link do Produto"` — the field does not
fall back to the source URL and can be the empty string. -/
theorem c3_counterexample :
    itemName fragE ≠ "" ∧
    (scrape_hinode "https://www.hinode.com.br/cat" "" (mkListing [fragE])).map
      (fun p => pyGet p "Link do Produto" "") = [""] :=
  ⟨by decide, by decide⟩

/-- C3 (amended): in single-product records `"Link do Produto"` is always
the source URL passed to the extractor (no in-document link is
consulted); in listing records it is the `href` of the fragment's name
anchor when that anchor is truthy and carries one, and the empty string
otherwise (no fallback to the source URL). -/
theorem c3_link_rule :
    (∀ url soup p, extract_product_info url soup = some p →
      pyGet p "Link do Produto" "" = url) ∧
    (∀ item r, processItem item = some r → pyGet r "Link do Produto" "" = itemLink item) ∧
    (∀ item e, item.selectOne itemNameSel = some e → e.truthy = true →
      e.hasAttr "href" = true → itemLink item = e.getAttrD "href" "") ∧
    (∀ item e, item.selectOne itemNameSel = some e → (e.truthy && e.hasAttr "href") = false →
      itemLink item = "") ∧
    (∀ item, item.selectOne itemNameSel = none → itemLink item = "") := by
  refine ⟨?_, ?_, ?_, ?_, ?_⟩
  · intro url soup p h
    simp only [extract_product_info] at h
    obtain rfl := Option.some.inj h
    rfl
  · intro item r h
    simp only [processItem] at h
    split at h
    next => obtain rfl := Option.some.inj h; rfl
    next => exact absurd h (by simp)
  · intro item e he ht hh
    simp only [itemLink, he]
    rw [if_pos (by rw [ht, hh]; rfl)]
  · intro item e he hcond
    simp only [itemLink, he]
    rw [if_neg (by rw [hcond]; exact Bool.false_ne_true)]
  · intro item h
    simp only [itemLink, h]

/-- Witness for C3 (amended): the single-product record from `productDoc`
carries the source URL. -/
theorem c3_link_rule_witness :
    pyGet recordP "Link do Produto" "" = "https://www.hinode.com.br/p/a" :=
  c3_link_rule.1 "https://www.hinode.com.br/p/a" productDoc recordP (by decide)

/-- C7: page classification evaluates its rules in order, first match
winning — `'/p/'` in the (cleaned) URL classifies single-product; else a
truthy `.product-info-main` element classifies single-product; else the
page is a listing — and the matching extractor branch is dispatched. -/
theorem c7_classifier_dispatch :
    ∀ url rt soup, strContains (pyLower rt) notFoundMarker = false →
      ((strContains (clean_url url) "/p/" = true →
        scrape_hinode url rt soup = singleProductBranch (clean_url url) soup) ∧
      (strContains (clean_url url) "/p/" = false →
        optTruthy (soup.selectOne productInfoMainSel) = true →
        scrape_hinode url rt soup = singleProductBranch (clean_url url) soup) ∧
      (strContains (clean_url url) "/p/" = false →
        optTruthy (soup.selectOne productInfoMainSel) = false →
        scrape_hinode url rt soup = listingBranch (clean_url url) soup)) := by
  intro url rt soup hnf
  refine ⟨?_, ?_, ?_⟩
  · intro h
    rw [scrape_branches url rt soup hnf, if_pos (by rw [h, Bool.true_or])]
  · intro h1 h2
    rw [scrape_branches url rt soup hnf, if_pos (by rw [h1, h2]; rfl)]
  · intro h1 h2
    rw [scrape_branches url rt soup hnf, if_neg (by rw [h1, h2]; simp)]

/-- Witness for C7: the URL rule fires on a `/p/` URL. -/
theorem c7_classifier_dispatch_witness :
    scrape_hinode "https://www.hinode.com.br/p/a" "" productDoc
      = singleProductBranch (clean_url "https://www.hinode.com.br/p/a") productDoc :=
  (c7_classifier_dispatch "https://www.hinode.com.br/p/a" "" productDoc (by decide)).1
    (by decide)

/-- C8: the extraction functions are total Lean functions (no exception
escapes them: `extract_product_info` always returns a record option —
in fact always `some` — and `extract_category_products` always returns a
list), and listing extraction is per-fragment compositional: fragments
are processed independently, so a fragment that contributes nothing
(e.g. the per-item handler bailed out on it) leaves the records of the
remaining fragments intact. -/
theorem c8_total_and_contained :
    (∀ url soup, extract_category_products url soup
      = (productItems soup).filterMap processItem) ∧
    (∀ url xs ys, extract_category_products url (mkListing (xs ++ ys))
      = extract_category_products url (mkListing xs)
        ++ extract_category_products url (mkListing ys)) ∧
    (∀ url xs ys bad, processItem bad = none →
      extract_category_products url (mkListing (xs ++ bad :: ys))
        = extract_category_products url (mkListing (xs ++ ys))) ∧
    (∀ url soup, (extract_product_info url soup).isSome = true) := by
  refine ⟨fun _ _ => rfl, ?_, ?_, fun _ _ => rfl⟩
  · intro url xs ys
    rw [extract_category_mkListing, extract_category_mkListing, extract_category_mkListing,
      List.filterMap_append]
  · intro url xs ys bad hbad
    rw [extract_category_mkListing, extract_category_mkListing, List.filterMap_append,
      List.filterMap_append, List.filterMap_cons, hbad]

/-- Witness for C8: dropping the nameless `fragB` from a concrete listing
leaves the other two fragments' records unchanged. -/
theorem c8_total_and_contained_witness :
    extract_category_products "u" (mkListing ([fragA] ++ fragB :: [fragC]))
      = extract_category_products "u" (mkListing ([fragA] ++ [fragC])) :=
  c8_total_and_contained.2.2.1 "u" [fragA] [fragC] fragB (by decide)

/-- C10: every record the listing extractor emits has, besides a
non-empty name, a price different from the sentinel or a non-empty image
URL. -/
theorem c10_listing_record_invariant :
    ∀ url soup p, p ∈ extract_category_products url soup →
      pyGet p "Nome" "" ≠ "" ∧
      (pyGet p "Preço" "" ≠ priceSentinel ∨ pyGet p "Link da Imagem" "" ≠ "") := by
  intro url soup p hp
  have hp' : p ∈ (productItems soup).filterMap processItem := hp
  obtain ⟨item, _, hitem⟩ := List.mem_filterMap.mp hp'
  simp only [processItem] at hitem
  split at hitem
  next hcond =>
    obtain rfl := Option.some.inj hitem
    have hcond' : itemName item ≠ ""
        ∧ (itemPrice item ≠ priceSentinel ∨ itemImageUrl item ≠ "") := by
      simpa using hcond
    exact ⟨hcond'.1, hcond'.2⟩
  next => exact absurd hitem (by simp)

/-- Witness for C10 at the concrete record extracted from `fragA`. -/
theorem c10_listing_record_invariant_witness :
    pyGet recordA "Nome" "" ≠ "" ∧
    (pyGet recordA "Preço" "" ≠ priceSentinel ∨ pyGet recordA "Link da Imagem" "" ≠ "") :=
  c10_listing_record_invariant "u" (mkListing [fragA]) recordA (by decide)

end HinodeBot
